import Mathlib

/-!
Shallow embedding of `src/internal.c` (augeas internal helpers).

Modelling conventions:
  * A C byte is a `Nat` (intended range `0 ≤ c ≤ 255`; `char` is taken as an
    unsigned byte).  A `List Nat` stands for the contents of a NUL-terminated
    C string or buffer, the terminator itself not being stored; reading the
    buffer at or past the end of the list yields the terminator byte `0`
    (`List.getD _ _ 0`), matching the memory layout of a NUL-terminated
    string.
  * `strlen` is the length of the longest NUL-free prefix.
  * Allocation (`malloc`/`realloc`/`CALLOC`) is modelled as always
    succeeding; the C allocation-failure paths are environment
    nondeterminism outside the algorithms under study.
  * A `FILE *` stream open for reading is a pair of the byte list it will
    deliver and a flag telling whether, after delivering those bytes, the
    stream ends in a read error (`true`) or in a plain end-of-file
    (`false`).  `fread(p, 1, requested, stream)` hands over
    `min requested remaining` bytes; `ferror` is set exactly when a read
    asked for more bytes than the stream had left and the flag is `true`.
-/

namespace Augeas

/-- Separator character, `SEP` = `'/'` in the C source. -/
def SEP : Nat := 47

/-- Length of a C string: bytes before the first NUL. -/
def strlen (s : List Nat) : Nat := (s.takeWhile (fun c => c != 0)).length

/-- One iteration of the `pathjoin` loop body from `internal.c`: a `NULL`
segment is replaced by the literal `"()"` (bytes `[40, 41]`); if the
accumulator is still `NULL` the segment is copied verbatim; otherwise a
separator is appended unless the accumulator already ends in one
(`strlen(*path) == 0 || (*path)[strlen(*path)-1] != SEP`), and a single
leading separator of the segment is stripped (`if (seg[0] == SEP) seg += 1`). -/
def pathjoinStep (path : Option (List Nat)) (seg0 : Option (List Nat)) :
    Option (List Nat) :=
  let seg := seg0.getD [40, 41]
  match path with
  | none => some seg
  | some p =>
    let p1 := if p.length = 0 ∨ p.getLast? ≠ some SEP then p ++ [SEP] else p
    let seg1 := if seg.headD 0 = SEP then seg.tail else seg
    some (p1 ++ seg1)

/-- `pathjoin(path, nseg, seg1, ..., segn)`: fold the loop body over the
(varargs) segment list.  `none` models a `NULL` pointer. -/
def pathjoin (path : Option (List Nat)) (segs : List (Option (List Nat))) :
    Option (List Nat) :=
  segs.foldl pathjoinStep path

/-- `BUFSIZ` from `<stdio.h>` (glibc value). -/
def BUFSIZ : Nat := 8192

/-- The buffer-growth step of `fread_file_lim`: when
`size + BUFSIZ + 1 > alloc`, grow by half (`alloc += alloc / 2`) and round
up to `size + BUFSIZ + 1` if still short. -/
def newAlloc (alloc size : Nat) : Nat :=
  if size + BUFSIZ + 1 > alloc then
    if alloc + alloc / 2 < size + BUFSIZ + 1 then size + BUFSIZ + 1
    else alloc + alloc / 2
  else alloc

/-- The read request of one `fread_file_lim` iteration:
`requested = MIN(size < max_len ? max_len - size : 0, alloc - size - 1)`
computed against the freshly grown allocation. -/
def reqFor (max_len size alloc : Nat) : Nat :=
  min (if size < max_len then max_len - size else 0) (newAlloc alloc size - size - 1)

/-- The `for (;;)` loop of `fread_file_lim`.  `remaining` is what the stream
still has to deliver, `err` tells whether the stream ends in a read error,
`buf` is the bytes stored so far (`size = buf.length`), `alloc` the current
allocation.  `count = min requested remaining.length` is what `fread`
returns; on `count != requested || requested == 0` the loop stops and
returns `none` when `ferror(stream)` (an end actually hit, with the error
flag up), else the buffer read so far. -/
def freadLoop (max_len : Nat) (err : Bool) (remaining buf : List Nat)
    (alloc : Nat) : Option (List Nat) :=
  if _h : min (reqFor max_len buf.length alloc) remaining.length
           = reqFor max_len buf.length alloc
         ∧ reqFor max_len buf.length alloc ≠ 0 then
    freadLoop max_len err
      (remaining.drop (min (reqFor max_len buf.length alloc) remaining.length))
      (buf ++ remaining.take (min (reqFor max_len buf.length alloc) remaining.length))
      (newAlloc alloc buf.length)
  else if min (reqFor max_len buf.length alloc) remaining.length
            < reqFor max_len buf.length alloc
          ∧ err = true then
    none
  else
    some (buf ++ remaining.take (min (reqFor max_len buf.length alloc) remaining.length))
termination_by remaining.length
decreasing_by
  simp only [List.length_drop]
  omega

/-- `fread_file_lim(stream, max_len, &length)`: run the loop from an empty
buffer with `alloc = 0`. -/
def fread_file_lim (data : List Nat) (err : Bool) (max_len : Nat) :
    Option (List Nat) :=
  freadLoop max_len err data [] 0

/-- `MAX_READ_LEN`, 32 MiB. -/
def MAX_READ_LEN : Nat := 32 * 1024 * 1024

/-- Conversion of a `size_t` value to a C `int` (32-bit, two's complement). -/
def intOfSize (n : Nat) : Int :=
  if n % 2 ^ 32 < 2 ^ 31 then ((n % 2 ^ 32 : Nat) : Int)
  else ((n % 2 ^ 32 : Nat) : Int) - 2 ^ 32

/-- `read_file(path)`: the argument models `fopen`, `none` when the file
cannot be opened, otherwise the stream contents and its error flag.  After
`fread_file_lim` with `MAX_READ_LEN`, the result is kept only when
`len <= MAX_READ_LEN && (int) len == len` (the `==` performed, as in C,
after converting both sides to `size_t`, i.e. modulo `2 ^ 64`). -/
def read_file : Option (List Nat × Bool) → Option (List Nat)
  | none => none
  | some (data, err) =>
    match fread_file_lim data err MAX_READ_LEN with
    | none => none
    | some result =>
      if result.length ≤ MAX_READ_LEN
         ∧ (intOfSize result.length).emod (2 ^ 64)
             = (result.length : Int).emod (2 ^ 64) then
        some result
      else none

/-- `escape_chars = "\"\a\b\t\n\v\f\r\\"` as bytes. -/
def escape_chars : List Nat := [34, 7, 8, 9, 10, 11, 12, 13, 92]

/-- `escape_names = "\"abtnvfr\\"` as bytes. -/
def escape_names : List Nat := [34, 97, 98, 116, 110, 118, 102, 114, 92]

/-- `strchr(str, c) - str` for a NUL-terminated string `str`: index of the
first occurrence of `c`, the terminator included (so `strchrIdx str 0 =
some str.length` when `0 ∉ str`), `none` when absent. -/
def strchrIdx : List Nat → Nat → Option Nat
  | [], c => if c = 0 then some 0 else none
  | a :: rest, c =>
    if a = c then some 0 else (strchrIdx rest c).map (fun i => i + 1)

/-- `escape_chars[i]`, reading the terminator byte `0` at index 9. -/
def escCharAt (i : Nat) : Nat := escape_chars.getD i 0

/-- `escape_names[i]`, reading the terminator byte `0` at index 9. -/
def escNameAt (i : Nat) : Nat := escape_names.getD i 0

/-- `isprint` in the C locale: printable ASCII, `' '` (32) to `'~'` (126). -/
def cIsprint (c : Nat) : Prop := 32 ≤ c ∧ c ≤ 126

instance instDecCIsprint (c : Nat) : Decidable (cIsprint c) :=
  inferInstanceAs (Decidable (32 ≤ c ∧ c ≤ 126))

/-- The length clamp shared by `escape` and `unescape`:
`if (cnt < 0 || cnt > strlen(text)) cnt = strlen(text)` (for `cnt ≥ 0` the
C comparison against the `size_t` result of `strlen` is the mathematical
one). -/
def clampLen (s : List Nat) (n : Int) : Nat :=
  if n < 0 ∨ (strlen s : Int) < n then strlen s else n.toNat

/-- What the second pass of `escape` emits for one byte:
`text[i] && strchr(escape_chars, text[i])` gives the two-byte `'\' + name`
form; otherwise a non-printable byte becomes `sprintf("\\%03o", text[i])`
(backslash and three zero-padded octal digits, `'0' = 48`); otherwise the
byte itself. -/
def escapeChar (c : Nat) : List Nat :=
  if c ≠ 0 ∧ (strchrIdx escape_chars c).isSome then
    [92, escNameAt ((strchrIdx escape_chars c).getD 0)]
  else if ¬ cIsprint c then
    [92, 48 + c / 64 % 8, 48 + c / 8 % 8, 48 + c % 8]
  else [c]

/-- What the first pass of `escape` adds to `len` for one byte. -/
def escapeLenChar (c : Nat) : Nat :=
  if c ≠ 0 ∧ (strchrIdx escape_chars c).isSome then 2
  else if ¬ cIsprint c then 4
  else 1

/-- `escape(text, cnt)`: clamp `cnt`, then the second pass concatenates the
per-byte encodings in order. -/
def escape (text : List Nat) (cnt : Int) : List Nat :=
  ((text.take (clampLen text cnt)).map escapeChar).flatten

/-- Size of the buffer `escape` allocates: first-pass total plus one
terminator (`CALLOC(esc, len + 1)`). -/
def escapeAlloc (text : List Nat) (cnt : Int) : Nat :=
  ((text.take (clampLen text cnt)).map escapeLenChar).sum + 1

/-- The scanning loop of `unescape` on the bytes `s[0..len)`, written as
structural recursion.  `ext` is the byte sitting at `s[len]` (the
terminator, or the byte after the window when `len < strlen(s)`): it is
what `s[i + 1]` reads when `i = len - 1`.  A byte `'\'` whose successor is
found by `strchr` in `escape_names` (terminator included!) is replaced by
`escape_chars[n - escape_names]` and the successor consumed; any other
byte is copied. -/
def unescapeList (ext : Nat) : List Nat → List Nat
  | [] => []
  | [c] =>
    if c = 92 ∧ (strchrIdx escape_names ext).isSome then
      [escCharAt ((strchrIdx escape_names ext).getD 0)]
    else [c]
  | c :: d :: rest =>
    if c = 92 ∧ (strchrIdx escape_names d).isSome then
      escCharAt ((strchrIdx escape_names d).getD 0) :: unescapeList ext rest
    else c :: unescapeList ext (d :: rest)

/-- `unescape(s, len)`: clamp `len`, then run the scanning loop over the
first `len` bytes with the byte at position `len` as lookahead. -/
def unescape (s : List Nat) (len : Int) : List Nat :=
  unescapeList (s.getD (clampLen s len) 0) (s.take (clampLen s len))

/-- The context `window` of `format_pos`. -/
def window : Nat := 28

/-- `format_pos(text, pos)`: clamp the left context to at most `window`
bytes before `pos`, escape both windows, then one of four `asprintf`
templates.  `%*s` with the one-byte string `"<"` and width `w` produces
`w - 1` spaces then `'<'` (60); `%-*s` with `">"` produces `'>'` (62) then
`w - 1` spaces; `"|=|"` is `[124, 61, 124]` and `'\n'` is 10. -/
def format_pos (text : List Nat) (pos : Nat) : List Nat :=
  let before := if pos > window then window else pos
  let left := escape (text.drop (pos - before)) (before : Int)
  let right := escape (text.drop pos) (window : Int)
  let llen := strlen left
  let rlen := strlen right
  if llen < window ∧ rlen < window then
    List.replicate (window - llen - 1) 32 ++ [60] ++ left ++ [124, 61, 124]
      ++ right ++ [62] ++ List.replicate (window - rlen - 1) 32 ++ [10]
  else if llen < window then
    List.replicate (window - llen - 1) 32 ++ [60] ++ left ++ [124, 61, 124]
      ++ right ++ [62] ++ [10]
  else if rlen < window then
    [60] ++ left ++ [124, 61, 124] ++ right ++ [62]
      ++ List.replicate (window - rlen - 1) 32 ++ [10]
  else
    [60] ++ left ++ [124, 61, 124] ++ right ++ [62] ++ [10]

/-- The escaped left window as the spec describes it: `min(window, offset)`
bytes ending at `pos`, escaped. -/
def specLeftWindow (text : List Nat) (pos : Nat) : List Nat :=
  escape (text.drop (pos - min 28 pos)) ((min 28 pos : Nat) : Int)

/-- The escaped right window as the spec describes it: up to `window` bytes
from `pos` on, escaped. -/
def specRightWindow (text : List Nat) (pos : Nat) : List Nat :=
  escape (text.drop pos) ((28 : Nat) : Int)

/-- The space padding the spec describes: present exactly when the escaped
window is shorter than 28 characters, filling the column up to the
marker. -/
def specPad (l : List Nat) : List Nat :=
  if l.length < 28 then List.replicate (28 - l.length - 1) 32 else []

/-! ## Helper lemmas -/

theorem strlen_eq_length (l : List Nat) (h : ∀ c ∈ l, c ≠ 0) :
    strlen l = l.length := by
  induction l with
  | nil => rfl
  | cons a t ih =>
    have ha : (a != 0) = true := by simpa using h a (by simp)
    have ht := ih (fun c hc => h c (by simp [hc]))
    simp only [strlen, List.takeWhile_cons, ha, if_true, List.length_cons] at *
    omega

theorem strchrIdx_eq_none : ∀ (l : List Nat) (c : Nat), c ≠ 0 → c ∉ l →
    strchrIdx l c = none
  | [], c, hc, _ => by simp [strchrIdx, hc]
  | a :: t, c, hc, hm => by
    have ha : a ≠ c := fun e => hm (by simp [e])
    simp [strchrIdx, ha, strchrIdx_eq_none t c hc (fun h2 => hm (by simp [h2]))]

theorem strchrIdx_mem : ∀ (l : List Nat) (c : Nat), c ≠ 0 →
    (strchrIdx l c).isSome = true → c ∈ l
  | [], c, hc, hs => by simp [strchrIdx, hc] at hs
  | a :: t, c, hc, hs => by
    by_cases ha : a = c
    · simp [ha]
    · have : (strchrIdx t c).isSome = true := by
        simpa [strchrIdx, ha] using hs
      simp [strchrIdx_mem t c hc this]

theorem strchrIdx_lt : ∀ (l : List Nat) (c i : Nat), c ≠ 0 →
    strchrIdx l c = some i → i < l.length
  | [], c, i, hc, hs => by simp [strchrIdx, hc] at hs
  | a :: t, c, i, hc, hs => by
    simp only [List.length_cons]
    by_cases ha : a = c
    · simp only [strchrIdx, if_pos ha, Option.some.injEq] at hs
      omega
    · simp only [strchrIdx, if_neg ha] at hs
      cases hj : strchrIdx t c with
      | none => rw [hj] at hs; simp at hs
      | some j =>
        rw [hj] at hs
        have hji : j + 1 = i := by simpa using hs
        have := strchrIdx_lt t c j hc hj
        omega

theorem escNameAt_ne_zero (i : Nat) (h : i < 9) : escNameAt i ≠ 0 := by
  interval_cases i <;> decide

theorem escapeChar_ne_zero (c : Nat) : ∀ x ∈ escapeChar c, x ≠ 0 := by
  intro x hx
  by_cases h1 : c ≠ 0 ∧ (strchrIdx escape_chars c).isSome = true
  · obtain ⟨hc0, hs⟩ := h1
    obtain ⟨i, hi⟩ := Option.isSome_iff_exists.mp hs
    have hilt : i < 9 := strchrIdx_lt escape_chars c i hc0 hi
    rw [escapeChar, if_pos ⟨hc0, hs⟩, hi] at hx
    simp only [Option.getD_some, List.mem_cons, List.not_mem_nil, or_false] at hx
    rcases hx with rfl | rfl
    · omega
    · exact escNameAt_ne_zero i hilt
  · by_cases h2 : cIsprint c
    · rw [escapeChar, if_neg h1, if_neg (not_not.mpr h2)] at hx
      simp only [List.mem_cons, List.not_mem_nil, or_false] at hx
      subst hx
      have := h2.1
      omega
    · rw [escapeChar, if_neg h1, if_pos h2] at hx
      simp only [List.mem_cons, List.not_mem_nil, or_false] at hx
      rcases hx with rfl | rfl | rfl | rfl <;> omega

theorem escape_ne_zero (text : List Nat) (cnt : Int) :
    ∀ x ∈ escape text cnt, x ≠ 0 := by
  intro x hx
  unfold escape at hx
  rw [List.mem_flatten] at hx
  obtain ⟨l, hl, hxl⟩ := hx
  rw [List.mem_map] at hl
  obtain ⟨c, _, rfl⟩ := hl
  exact escapeChar_ne_zero c x hxl

theorem strlen_escape (text : List Nat) (cnt : Int) :
    strlen (escape text cnt) = (escape text cnt).length :=
  strlen_eq_length _ (escape_ne_zero text cnt)

theorem unescapeList_cons_ne (ext c : Nat) (rest : List Nat)
    (h : ¬(c = 92 ∧ (strchrIdx escape_names (rest.headD ext)).isSome = true)) :
    unescapeList ext (c :: rest) = c :: unescapeList ext rest := by
  cases rest with
  | nil =>
    simp only [List.headD_nil] at h
    simp only [unescapeList, if_neg h]
  | cons d t =>
    simp only [List.headD_cons] at h
    simp only [unescapeList, if_neg h]

theorem unescapeList_verbatim (ext : Nat) : ∀ (l : List Nat),
    (∀ c ∈ l, c ≠ 92) → unescapeList ext l = l
  | [], _ => rfl
  | c :: t, h => by
    rw [unescapeList_cons_ne ext c t (fun hh => (h c (by simp)) hh.1)]
    rw [unescapeList_verbatim ext t (fun x hx => h x (by simp [hx]))]

theorem escapeChar_plain (c : Nat) (h1 : 32 ≤ c) (h2 : c ≤ 126)
    (hm : c ∉ escape_chars) : escapeChar c = [c] := by
  have hc0 : c ≠ 0 := by omega
  have hnone := strchrIdx_eq_none escape_chars c hc0 hm
  unfold escapeChar
  rw [if_neg (by simp [hnone]), if_neg (not_not.mpr ⟨h1, h2⟩)]

theorem unescapeList_escapeChar (ext c : Nat) (rest : List Nat)
    (h : c ∈ escape_chars ∨ (32 ≤ c ∧ c ≤ 126)) :
    unescapeList ext (escapeChar c ++ rest) = c :: unescapeList ext rest := by
  by_cases hm : c ∈ escape_chars
  · simp only [escape_chars] at hm
    fin_cases hm <;> rfl
  · rcases h with h | h
    · exact absurd h hm
    · rw [escapeChar_plain c h.1 h.2 hm]
      have hc92 : c ≠ 92 := fun e => hm (e ▸ (by decide))
      exact unescapeList_cons_ne ext c rest (fun hh => hc92 hh.1)

theorem unescapeList_flatten (ext : Nat) : ∀ (s : List Nat),
    (∀ c ∈ s, c ∈ escape_chars ∨ (32 ≤ c ∧ c ≤ 126)) →
    unescapeList ext ((s.map escapeChar).flatten) = s
  | [], _ => rfl
  | c :: t, h => by
    simp only [List.map_cons, List.flatten_cons]
    rw [unescapeList_escapeChar ext c _ (h c (by simp))]
    rw [unescapeList_flatten ext t (fun x hx => h x (by simp [hx]))]

theorem escapeChar_length (c : Nat) :
    (escapeChar c).length = escapeLenChar c := by
  unfold escapeChar escapeLenChar
  split_ifs <;> rfl

theorem flatten_map_length : ∀ (l : List Nat),
    ((l.map escapeChar).flatten).length = (l.map escapeLenChar).sum
  | [] => rfl
  | c :: t => by
    simp [escapeChar_length c, flatten_map_length t]

theorem newAlloc_ge (alloc size : Nat) : size + BUFSIZ + 1 ≤ newAlloc alloc size := by
  unfold newAlloc
  split_ifs <;> omega

theorem reqFor_spec (max_len size alloc : Nat) :
    (size < max_len →
      1 ≤ reqFor max_len size alloc ∧ reqFor max_len size alloc ≤ max_len - size)
    ∧ (max_len ≤ size → reqFor max_len size alloc = 0) := by
  have hna := newAlloc_ge alloc size
  unfold BUFSIZ at hna
  unfold reqFor
  constructor
  · intro h
    rw [if_pos h]
    omega
  · intro h
    rw [if_neg (by omega)]
    simp

theorem freadLoop_eq (max_len : Nat) (err : Bool) :
    ∀ (n : Nat) (remaining buf : List Nat) (alloc : Nat),
    remaining.length ≤ n → buf.length ≤ max_len →
    freadLoop max_len err remaining buf alloc =
      if max_len ≤ buf.length + remaining.length then
        some (buf ++ remaining.take (max_len - buf.length))
      else if err = true then none
      else some (buf ++ remaining) := by
  intro n
  induction n with
  | zero =>
    intro remaining buf alloc hn hb
    have hrem : remaining = [] := List.eq_nil_of_length_eq_zero (Nat.le_zero.mp hn)
    subst hrem
    rw [freadLoop]
    simp only [List.length_nil, List.take_nil, List.append_nil, Nat.min_zero,
      Nat.add_zero]
    rw [dif_neg (by omega)]
    rcases Nat.lt_or_ge buf.length max_len with hsz | hsz
    · have hr := (reqFor_spec max_len buf.length alloc).1 hsz
      rw [if_neg (show ¬(max_len ≤ buf.length) by omega)]
      cases err
      · rw [if_neg (by simp), if_neg (by simp)]
      · rw [if_pos ⟨by omega, rfl⟩, if_pos rfl]
    · have hr0 : reqFor max_len buf.length alloc = 0 := (reqFor_spec _ _ _).2 hsz
      rw [if_neg (by omega), if_pos hsz]
  | succ n ih =>
    intro remaining buf alloc hn hb
    rw [freadLoop]
    rcases Nat.lt_or_ge buf.length max_len with hsz | hsz
    · have hr := (reqFor_spec max_len buf.length alloc).1 hsz
      rcases Nat.lt_or_ge remaining.length (reqFor max_len buf.length alloc)
        with hshort | hlong
      · -- short read: the stream ran out before the request was filled
        rw [dif_neg (by omega)]
        have hm : min (reqFor max_len buf.length alloc) remaining.length
            = remaining.length := by omega
        rw [hm, List.take_length]
        have hnotfull : ¬(max_len ≤ buf.length + remaining.length) := by omega
        cases err
        · rw [if_neg (by simp), if_neg hnotfull, if_neg (by simp)]
        · rw [if_pos ⟨by omega, rfl⟩, if_neg hnotfull, if_pos rfl]
      · -- full read: recurse
        have hm : min (reqFor max_len buf.length alloc) remaining.length
            = reqFor max_len buf.length alloc := by omega
        rw [dif_pos ⟨hm, by omega⟩, hm]
        rw [ih (remaining.drop (reqFor max_len buf.length alloc))
            (buf ++ remaining.take (reqFor max_len buf.length alloc))
            (newAlloc alloc buf.length)
            (by simp only [List.length_drop]; omega)
            (by simp only [List.length_append, List.length_take]; omega)]
        simp only [List.length_append, List.length_take, List.length_drop, hm]
        by_cases hc : max_len ≤ buf.length + remaining.length
        · rw [if_pos (by omega), if_pos hc, List.append_assoc, ← List.take_add]
          have : reqFor max_len buf.length alloc
              + (max_len - (buf.length + reqFor max_len buf.length alloc))
              = max_len - buf.length := by omega
          rw [this]
        · rw [if_neg (by omega), if_neg hc, List.append_assoc,
            List.take_append_drop]
    · have hr0 : reqFor max_len buf.length alloc = 0 := (reqFor_spec _ _ _).2 hsz
      rw [hr0]
      simp only [Nat.zero_min, List.take_zero, List.append_nil]
      rw [dif_neg (by omega), if_neg (by omega), if_pos (by omega)]
      have h0 : max_len - buf.length = 0 := by omega
      rw [h0, List.take_zero, List.append_nil]

theorem fread_file_lim_eq (data : List Nat) (err : Bool) (max_len : Nat) :
    fread_file_lim data err max_len =
      if max_len ≤ data.length then some (data.take max_len)
      else if err = true then none
      else some data := by
  have h := freadLoop_eq max_len err data.length data [] 0 le_rfl (Nat.zero_le _)
  simpa [fread_file_lim] using h

theorem read_file_large (data : List Nat) (err : Bool)
    (h : MAX_READ_LEN ≤ data.length) :
    read_file (some (data, err)) = some (data.take MAX_READ_LEN) := by
  have hlen : (data.take MAX_READ_LEN).length = MAX_READ_LEN := by
    simp only [List.length_take]
    omega
  simp only [read_file]
  rw [fread_file_lim_eq, if_pos h]
  exact if_pos ⟨by omega, by rw [hlen]; decide⟩

theorem flatten_map_plain : ∀ (s : List Nat),
    (∀ c ∈ s, 32 ≤ c ∧ c ≤ 126 ∧ c ∉ escape_chars) →
    (s.map escapeChar).flatten = s
  | [], _ => rfl
  | c :: t, h => by
    obtain ⟨h1, h2, h3⟩ := h c (by simp)
    simp only [List.map_cons, List.flatten_cons, escapeChar_plain c h1 h2 h3,
      List.singleton_append]
    rw [flatten_map_plain t (fun x hx => h x (by simp [hx]))]

/-! ## Claim theorems -/

/-- Claim C1: for every string built only from the control-escape characters
and printable ASCII bytes, `unescape (escape s (-1)) (-1) = s`: the pair
round-trips on this restricted domain. -/
theorem escape_unescape_roundtrip (s : List Nat)
    (h : ∀ c ∈ s, c ∈ escape_chars ∨ (32 ≤ c ∧ c ≤ 126)) :
    unescape (escape s (-1)) (-1) = s := by
  have hs0 : ∀ c ∈ s, c ≠ 0 := by
    intro c hc
    rcases h c hc with hm | hm
    · simp only [escape_chars] at hm
      fin_cases hm <;> decide
    · omega
  have hclamp : clampLen s (-1) = s.length := by
    rw [clampLen, if_pos (by left; decide), strlen_eq_length s hs0]
  have hesc : escape s (-1) = (s.map escapeChar).flatten := by
    rw [escape, hclamp, List.take_length]
  have hE0 : ∀ x ∈ (s.map escapeChar).flatten, x ≠ 0 :=
    fun x hx => escape_ne_zero s (-1) x (by rw [hesc]; exact hx)
  have hclampE : clampLen ((s.map escapeChar).flatten) (-1)
      = ((s.map escapeChar).flatten).length := by
    rw [clampLen, if_pos (by left; decide), strlen_eq_length _ hE0]
  rw [hesc, unescape, hclampE, List.take_length, List.getD_eq_default _ _ le_rfl]
  exact unescapeList_flatten 0 s h

/-- Witness for C1 at the concrete string `"\"\na"`. -/
theorem escape_unescape_roundtrip_witness :
    (∀ c ∈ [34, 10, 97], c ∈ escape_chars ∨ (32 ≤ c ∧ c ≤ 126))
    ∧ unescape (escape [34, 10, 97] (-1)) (-1) = [34, 10, 97] :=
  ⟨by decide, escape_unescape_roundtrip [34, 10, 97] (by decide)⟩

/-- Claim C2, counterexample: on a readable stream one byte longer than
32 MiB and ending in plain end-of-file, `read_file` does NOT return null;
it returns the truncated first 32 MiB (the `len <= MAX_READ_LEN` guard is
vacuous because `fread_file_lim` already caps at `MAX_READ_LEN`). -/
theorem read_file_over_limit_not_null :
    read_file (some (List.replicate (MAX_READ_LEN + 1) 65, false)) ≠ none
    ∧ read_file (some (List.replicate (MAX_READ_LEN + 1) 65, false))
        = some (List.replicate MAX_READ_LEN 65) := by
  have h := read_file_large (List.replicate (MAX_READ_LEN + 1) 65) false
    (by simp only [List.length_replicate]; omega)
  rw [List.take_replicate] at h
  have hmin : min MAX_READ_LEN (MAX_READ_LEN + 1) = MAX_READ_LEN := by omega
  rw [hmin] at h
  exact ⟨by rw [h]; simp, h⟩

/-- Claim C2 (amended): `read_file` on a readable error-free file of at
least 32 MiB returns the first `MAX_READ_LEN` bytes: a file of exactly
32 MiB is returned in full, and a strictly larger file is silently
truncated to 32 MiB rather than rejected with null. -/
theorem read_file_cap (data : List Nat) (err : Bool)
    (h : MAX_READ_LEN ≤ data.length) :
    read_file (some (data, err)) = some (data.take MAX_READ_LEN) :=
  read_file_large data err h

/-- Witness for the amended C2 at a file of exactly 32 MiB. -/
theorem read_file_cap_witness :
    MAX_READ_LEN ≤ (List.replicate MAX_READ_LEN 65).length
    ∧ read_file (some (List.replicate MAX_READ_LEN 65, false))
        = some ((List.replicate MAX_READ_LEN 65).take MAX_READ_LEN) :=
  ⟨by simp, read_file_cap (List.replicate MAX_READ_LEN 65) false (by simp)⟩

/-- Claim C3, counterexample: a lone backslash at the end of the input is
NOT emitted unchanged: `strchr(escape_names, s[i+1])` finds the NUL
terminator of `escape_names`, so `unescape "\\"` writes the byte
`escape_chars[9]` — the terminator `0` — instead of the backslash. -/
theorem unescape_trailing_backslash_not_verbatim :
    unescape [92] (-1) ≠ [92] := by decide

/-- Claim C3 (amended): `unescape` copies verbatim every byte that does not
start a recognized escape pair, where the recognized successors are the
nine escape-name bytes AND the NUL terminator; a backslash followed by a
letter outside the escape-name set is passed through as two literal
characters, but a lone backslash at the end of the input (successor = the
terminator) is instead replaced by the NUL byte `escape_chars[9]`. -/
theorem unescape_verbatim_amended :
    (∀ (ext c : Nat) (rest : List Nat),
        ¬(c = 92 ∧ (strchrIdx escape_names (rest.headD ext)).isSome = true) →
        unescapeList ext (c :: rest) = c :: unescapeList ext rest)
    ∧ (∀ (d : Nat) (rest : List Nat), d ≠ 0 → d ∉ escape_names →
        unescapeList 0 (92 :: d :: rest) = 92 :: d :: unescapeList 0 rest)
    ∧ unescape [92] (-1) = [0] := by
  refine ⟨unescapeList_cons_ne, ?_, by decide⟩
  intro d rest hd0 hdm
  have hnone := strchrIdx_eq_none escape_names d hd0 hdm
  have hd92 : d ≠ 92 := fun e => hdm (e ▸ (by decide))
  simp only [unescapeList]
  rw [if_neg (by simp [hnone]),
    unescapeList_cons_ne 0 d rest (fun hh => hd92 hh.1)]

/-- Witness for the amended C3: a plain byte and an unrecognized escape. -/
theorem unescape_verbatim_amended_witness :
    unescapeList 0 [97] = 97 :: unescapeList 0 []
    ∧ unescapeList 0 (92 :: 122 :: []) = 92 :: 122 :: unescapeList 0 [] :=
  ⟨unescape_verbatim_amended.1 0 97 [] (by decide),
   unescape_verbatim_amended.2.1 122 [] (by decide) (by decide)⟩

/-- Claim C4: per input byte, `escape` emits 1 byte for a printable byte
outside the control-escape set, 2 bytes (backslash + name) for a byte of
the control-escape set, and 4 bytes (backslash + exactly three octal
digits that zero-padded decode back to the byte) otherwise; the output
length is the sum of the per-byte first-pass lengths and the buffer is
allocated as that total plus one terminator. -/
theorem escape_byte_lengths :
    (∀ c : Nat, c < 256 →
      ((c ∈ escape_chars →
          (escapeChar c).length = 2 ∧ (escapeChar c).headD 0 = 92
          ∧ (escapeChar c).getD 1 0 ∈ escape_names)
       ∧ (c ∉ escape_chars → cIsprint c → escapeChar c = [c])
       ∧ (c ∉ escape_chars → ¬cIsprint c →
            escapeChar c = [92, 48 + c / 64, 48 + c / 8 % 8, 48 + c % 8]
            ∧ c / 64 < 8 ∧ c / 8 % 8 < 8 ∧ c % 8 < 8
            ∧ 64 * (c / 64) + 8 * (c / 8 % 8) + c % 8 = c)))
    ∧ (∀ (text : List Nat) (cnt : Int),
        (escape text cnt).length + 1 = escapeAlloc text cnt) := by
  constructor
  · intro c hc
    refine ⟨?_, ?_, ?_⟩
    · intro hm
      simp only [escape_chars] at hm
      fin_cases hm <;> decide
    · intro hm hp
      exact escapeChar_plain c hp.1 hp.2 hm
    · intro hm hp
      have hoct : escapeChar c
          = [92, 48 + c / 64 % 8, 48 + c / 8 % 8, 48 + c % 8] := by
        by_cases hc0 : c = 0
        · subst hc0; decide
        · rw [escapeChar,
            if_neg (by simp [strchrIdx_eq_none escape_chars c hc0 hm]),
            if_pos hp]
      have h64 : c / 64 % 8 = c / 64 := Nat.mod_eq_of_lt (by omega)
      refine ⟨by rw [hoct, h64], by omega, by omega, by omega, by omega⟩
  · intro text cnt
    rw [escape, escapeAlloc, flatten_map_length]

/-- Witness for C4: a control-escape byte, a printable byte, a
non-printable byte, and a concrete buffer. -/
theorem escape_byte_lengths_witness :
    ((escapeChar 10).length = 2 ∧ (escapeChar 10).headD 0 = 92
      ∧ (escapeChar 10).getD 1 0 ∈ escape_names)
    ∧ escapeChar 65 = [65]
    ∧ (escapeChar 1 = [92, 48 + 1 / 64, 48 + 1 / 8 % 8, 48 + 1 % 8]
        ∧ 1 / 64 < 8 ∧ 1 / 8 % 8 < 8 ∧ 1 % 8 < 8
        ∧ 64 * (1 / 64) + 8 * (1 / 8 % 8) + 1 % 8 = 1)
    ∧ (escape [10, 1, 65] 3).length + 1 = escapeAlloc [10, 1, 65] 3 :=
  ⟨(escape_byte_lengths.1 10 (by decide)).1 (by decide),
   (escape_byte_lengths.1 65 (by decide)).2.1 (by decide) (by decide),
   (escape_byte_lengths.1 1 (by decide)).2.2 (by decide) (by decide),
   escape_byte_lengths.2 [10, 1, 65] 3⟩

/-- Claim C5: on printable ASCII strings containing no control-escape
character, both `escape` and `unescape` are the identity. -/
theorem escape_unescape_identity_plain (s : List Nat)
    (h : ∀ c ∈ s, 32 ≤ c ∧ c ≤ 126 ∧ c ∉ escape_chars) :
    escape s (-1) = s ∧ unescape s (-1) = s := by
  have hs0 : ∀ c ∈ s, c ≠ 0 := fun c hc => by have := (h c hc).1; omega
  have hclamp : clampLen s (-1) = s.length := by
    rw [clampLen, if_pos (by left; decide), strlen_eq_length s hs0]
  constructor
  · rw [escape, hclamp, List.take_length, flatten_map_plain s h]
  · rw [unescape, hclamp, List.take_length, List.getD_eq_default _ _ le_rfl]
    exact unescapeList_verbatim 0 s
      (fun c hc e => (h c hc).2.2 (e ▸ (by decide)))

/-- Witness for C5 at the concrete string `"hi"`. -/
theorem escape_unescape_identity_plain_witness :
    (∀ c ∈ [104, 105], 32 ≤ c ∧ c ≤ 126 ∧ c ∉ escape_chars)
    ∧ escape [104, 105] (-1) = [104, 105]
    ∧ unescape [104, 105] (-1) = [104, 105] :=
  ⟨by decide, (escape_unescape_identity_plain [104, 105] (by decide)).1,
   (escape_unescape_identity_plain [104, 105] (by decide)).2⟩

/-- Claim C6: `format_pos` clamps the left context to `min 28 pos` bytes
ending at `pos`, escapes both windows independently, and always produces
left-pad, `'<'`, escaped left window, `"|=|"`, escaped right window, `'>'`,
right-pad and a newline, the pads being present exactly when the
corresponding escaped window is shorter than 28 characters; at
`("hello world", 5)` this puts `hello` left and `" world"` right of the
marker. -/
theorem format_pos_layout :
    (∀ (text : List Nat) (pos : Nat), pos ≤ strlen text →
      format_pos text pos
        = specPad (specLeftWindow text pos) ++ [60] ++ specLeftWindow text pos
          ++ [124, 61, 124] ++ specRightWindow text pos ++ [62]
          ++ specPad (specRightWindow text pos) ++ [10])
    ∧ format_pos [104, 101, 108, 108, 111, 32, 119, 111, 114, 108, 100] 5
        = List.replicate 22 32 ++ [60] ++ [104, 101, 108, 108, 111]
          ++ [124, 61, 124] ++ [32, 119, 111, 114, 108, 100] ++ [62]
          ++ List.replicate 21 32 ++ [10] := by
  constructor
  · intro text pos _
    have hwin : window = 28 := rfl
    simp only [format_pos, specLeftWindow, specRightWindow, specPad, hwin,
      strlen_escape]
    have e1 : (if pos > 28 then 28 else pos) = min 28 pos := by
      split_ifs <;> omega
    rw [e1]
    by_cases h1 : (escape (text.drop (pos - min 28 pos))
        ((min 28 pos : Nat) : Int)).length < 28
      <;> by_cases h2 : (escape (text.drop pos) ((28 : Nat) : Int)).length < 28
    · rw [if_pos ⟨h1, h2⟩, if_pos h1, if_pos h2]
    · rw [if_neg (fun hh => h2 hh.2), if_pos h1, if_pos h1, if_neg h2]
      simp [List.append_assoc]
    · rw [if_neg (fun hh => h1 hh.1), if_neg h1, if_pos h2, if_neg h1,
        if_pos h2]
      simp [List.append_assoc]
    · rw [if_neg (fun hh => h1 hh.1), if_neg h1, if_neg h2, if_neg h1,
        if_neg h2]
      simp [List.append_assoc]
  · decide

/-- Witness for C6 at `("hello world", 5)`. -/
theorem format_pos_layout_witness :
    5 ≤ strlen [104, 101, 108, 108, 111, 32, 119, 111, 114, 108, 100]
    ∧ format_pos [104, 101, 108, 108, 111, 32, 119, 111, 114, 108, 100] 5
      = specPad (specLeftWindow
            [104, 101, 108, 108, 111, 32, 119, 111, 114, 108, 100] 5)
        ++ [60]
        ++ specLeftWindow [104, 101, 108, 108, 111, 32, 119, 111, 114, 108, 100] 5
        ++ [124, 61, 124]
        ++ specRightWindow [104, 101, 108, 108, 111, 32, 119, 111, 114, 108, 100] 5
        ++ [62]
        ++ specPad (specRightWindow
            [104, 101, 108, 108, 111, 32, 119, 111, 114, 108, 100] 5)
        ++ [10] :=
  ⟨by decide,
   format_pos_layout.1 [104, 101, 108, 108, 111, 32, 119, 111, 114, 108, 100]
     5 (by decide)⟩

/-- Claim C7: `pathjoin` from an empty accumulator builds `a/b/c` from the
segments `a`, `b`, `c`; `a/` followed by `/b` gives `a/b` with no doubled
separator; and a NULL segment is rendered as the literal component `()`. -/
theorem pathjoin_examples :
    pathjoin none [some [97], some [98], some [99]] = some [97, 47, 98, 47, 99]
    ∧ pathjoin none [some [97, 47], some [47, 98]] = some [97, 47, 98]
    ∧ pathjoin none [some [97], none] = some [97, 47, 40, 41] :=
  ⟨by decide, by decide, by decide⟩

/-- Claim C8: `fread_file_lim` returns the first `max_len` stream bytes when
the stream holds at least `max_len` (a zero-byte request stops the loop
with no error), returns null exactly when the stream ends in a read error
before `max_len` bytes arrive, returns the whole stream on plain
end-of-file (success), and never returns more than `max_len` bytes. -/
theorem fread_file_lim_spec (data : List Nat) (err : Bool) (max_len : Nat) :
    fread_file_lim data err max_len
      = (if max_len ≤ data.length then some (data.take max_len)
         else if err = true then none
         else some data)
    ∧ (∀ r : List Nat, fread_file_lim data err max_len = some r →
        r.length ≤ max_len) := by
  refine ⟨fread_file_lim_eq data err max_len, ?_⟩
  intro r hr
  rw [fread_file_lim_eq data err max_len] at hr
  by_cases h1 : max_len ≤ data.length
  · rw [if_pos h1] at hr
    injection hr with hr
    rw [← hr]
    simp [List.length_take]
  · rw [if_neg h1] at hr
    cases err
    · rw [if_neg (by simp)] at hr
      injection hr with hr
      rw [← hr]
      omega
    · rw [if_pos rfl] at hr
      exact absurd hr (by simp)

/-- Witness for C8 at a two-byte stream capped to one byte. -/
theorem fread_file_lim_spec_witness :
    fread_file_lim [65, 66] false 1
      = (if 1 ≤ ([65, 66] : List Nat).length then some (([65, 66] : List Nat).take 1)
         else if false = true then none
         else some [65, 66])
    ∧ ([65] : List Nat).length ≤ 1 :=
  ⟨(fread_file_lim_spec [65, 66] false 1).1,
   (fread_file_lim_spec [65, 66] false 1).2 [65]
     (by rw [fread_file_lim_eq]; decide)⟩

/-- Claim C9: on empty input both `escape` and `unescape` return the empty
string (the zero-length buffer), whatever the count arguments are. -/
theorem escape_unescape_empty (cnt len : Int) :
    escape [] cnt = [] ∧ unescape [] len = [] := by
  constructor
  · rw [escape]
    simp
  · rw [unescape]
    simp [unescapeList]

/-- Claim C10: with an empty (NULL) accumulator the first segment is copied
verbatim — leading-separator stripping applies only to appended segments —
so `pathjoin` from nothing with `"/a"` then `"b"` keeps the leading
slash. -/
theorem pathjoin_first_segment_verbatim :
    (∀ seg : List Nat, pathjoin none [some seg] = some seg)
    ∧ pathjoin none [some [47, 97], some [98]] = some [47, 97, 47, 98] := by
  constructor
  · intro seg
    simp [pathjoin, pathjoinStep]
  · decide

end Augeas
